import Mathlib

set_option maxHeartbeats 1000000
set_option maxRecDepth 8000

/-!
Shallow embedding of the webdfu host-side DFU/DfuSe driver
(flipperdevices/webdfu), covering the parts the claims are about:

* `parseMemoryDescriptor` (src/core.ts, duplicated as
  `parseDfuSeMemoryDescriptor` in src/dfu.driver.ts): JavaScript strings
  are modelled as `List Char`; the two regular expressions of the source
  are implemented as the deterministic greedy matchers they denote
  (analysed below at each point where the JS backtracking engine could
  backtrack).
* `DriverDFU.do_write` / `do_read` (src/dfu.driver.ts) and
  `WebDFUDriver.poll_until` / `getStatus` (src/base.driver.ts).
* The DfuSe engine (src/unnamed/part_008): `erase`, `do_dfuse_write`,
  `getDfuseSegment`, sector arithmetic.
* `parseSubDescriptors` (src/core.ts and src/base.driver.ts, identical).

JavaScript numbers on these code paths are nonnegative integers below
2^53, so they are modelled as `Nat` (the one place a value can go
negative, `startAddr + length - 1` in `erase`, is modelled with `Int`).
-/

/-- Whitespace test modelling the JavaScript regex class `\s` (and the
whitespace stripped by `String.prototype.trim`) restricted to the ASCII
range; the extra Unicode space code points of `\s` matter for none of
the claims. -/
def isWsC (c : Char) : Bool :=
  c = ' ' || c = '\t' || c = '\n' || c = '\r' || c = '\x0b' || c = '\x0c'

/-- Hex-digit test, the regex class `[0-9a-fA-F]`. -/
def isHexC (c : Char) : Bool :=
  c.isDigit || ('a' ≤ c && c ≤ 'f') || ('A' ≤ c && c ≤ 'F')

/-- Unit-letter test, the regex class `[ BKM]`. -/
def isUnitC (c : Char) : Bool :=
  c = ' ' || c = 'B' || c = 'K' || c = 'M'

/-- Permission-letter test, the regex class `[abcdefg]`. -/
def isPermC (c : Char) : Bool :=
  'a' ≤ c && c ≤ 'g'

/-- Value of a decimal digit string, modelling `parseInt(s, 10)` on a
string of digits (exact for the integer ranges that occur here). -/
def decVal (ds : List Char) : Nat :=
  ds.foldl (fun a c => a * 10 + (c.toNat - 48)) 0

/-- Value of one hex digit. -/
def hexDigitVal (c : Char) : Nat :=
  if c.isDigit then c.toNat - 48
  else if 'a' ≤ c && c ≤ 'f' then c.toNat - 87
  else c.toNat - 55

/-- Value of a hex digit string; `parseInt("0x" ++ s, 16)` in the source. -/
def hexVal (ds : List Char) : Nat :=
  ds.foldl (fun a c => a * 16 + hexDigitVal c) 0

/-- One DfuSe memory segment, the `DFUseMemorySegment` record of
src/core.ts; `endAddr` models the source field `end` (a Lean keyword). -/
structure Seg where
  start : Nat
  endAddr : Nat
  sectorSize : Nat
  readable : Bool
  erasable : Bool
  writable : Bool
deriving DecidableEq

/-- The four capture groups of one run match
`([0-9]+)\s*\*\s*([0-9]+)\s?([ BKM])\s*([abcdefg])\s*,?\s*`:
`count` is group 1 via `parseInt(-, 10)`, `size` is group 2 via
`parseInt` (base 10 for a digit string), `unit` group 3, `perm` group 4. -/
structure RunM where
  count : Nat
  size : Nat
  unit : Char
  perm : Char
deriving DecidableEq

/-- Matcher for `\s?([ BKM])` after the size digits.  The JS engine
first lets the greedy `\s?` take one whitespace character and tries the
class on the next character; on failure it backtracks to an empty `\s?`
and tries the class on the first character (note ' ' is in both `\s`
and `[ BKM]`).  Returns the captured unit and the rest. -/
def unitSplit : List Char → Option (Char × List Char)
  | c :: u :: r =>
      if isWsC c && isUnitC u then some (u, r)
      else if isUnitC c then some (c, u :: r) else none
  | [c] => if isUnitC c then some (c, []) else none
  | [] => none

/-- Anchored match of the run core
`([0-9]+)\s*\*\s*([0-9]+)\s?([ BKM])\s*([abcdefg])\s*,?\s*` at the head
of `s`; returns the captures and the unconsumed suffix.  All the starred
pieces are greedy; except for `\s?` before `[ BKM]` (see `unitSplit`) no
backtracking can change the outcome because each repeated class is
disjoint from the character that must follow it. -/
def matchRunCore (s : List Char) : Option (RunM × List Char) :=
  let d1 := s.takeWhile Char.isDigit
  if d1.isEmpty then none else
  match (s.drop d1.length).dropWhile isWsC with
  | '*' :: s2 =>
    let s3 := s2.dropWhile isWsC
    let d2 := s3.takeWhile Char.isDigit
    if d2.isEmpty then none else
    match unitSplit (s3.drop d2.length) with
    | none => none
    | some (u, s5) =>
      match s5.dropWhile isWsC with
      | p :: s7 =>
        if isPermC p then
          let s8 := s7.dropWhile isWsC
          let s9 := match s8 with
            | ',' :: r => r
            | _ => s8
          some (⟨decVal d1, decVal d2, u, p⟩, s9.dropWhile isWsC)
        else none
      | [] => none
  | _ => none

/-- Greedy `(\s*run)*` tail of the outer regex: keep consuming runs
(each preceded by `\s*`) while they match; when a run fails, the
whitespace tried for its leading `\s*` is not consumed.  `fuel` bounds
the iteration count; every successful run consumes at least one
character, so `s.length` fuel is always enough. -/
def runsStar (fuel : Nat) (s : List Char) : List Char :=
  match fuel with
  | 0 => s
  | fuel + 1 =>
    match matchRunCore (s.dropWhile isWsC) with
    | some (_, s2) => runsStar fuel s2
    | none => s

/-- Anchored match of the outer regex
`\/\s*(0x[0-9a-fA-F]{1,8})\s*\/(\s*[0-9]+\s*\*\s*[0-9]+\s?[ BKM]\s*[abcdefg]\s*,?\s*)+`
at the head of `s`.  Returns `parseInt(group1, 16)` and the unconsumed
suffix.  The hex repetition `{1,8}` is greedy and cannot backtrack
usefully: if a ninth hex digit follows, every shorter choice leaves a
hex digit where `\s*\/` must match, so the whole match fails here. -/
def matchOuterHere (fuel : Nat) (s : List Char) : Option (Nat × List Char) :=
  match s with
  | '/' :: s1 =>
    match s1.dropWhile isWsC with
    | '0' :: 'x' :: s3 =>
      let hs := s3.takeWhile isHexC
      if hs.isEmpty || 8 < hs.length then none
      else
        match (s3.drop hs.length).dropWhile isWsC with
        | '/' :: s5 =>
          match matchRunCore (s5.dropWhile isWsC) with
          | some (_, s6) => some (hexVal hs, runsStar fuel s6)
          | none => none
        | _ => none
    | _ => none
  | _ => none

/-- The loop `while (contiguousSegmentMatch = contiguousSegmentRegex.exec(...))`
over the global outer regex: starting from `lastIndex`, the engine finds
the leftmost position where the outer regex matches, yields the match,
and continues after its end.  Each list entry is
(`parseInt(match[1], 16)`, the characters of `match[0]`).  `fuel` bounds
the scan; every step consumes at least one character. -/
def outerExec (fuel : Nat) (s : List Char) : List (Nat × List Char) :=
  match fuel with
  | 0 => []
  | fuel + 1 =>
    match s with
    | [] => []
    | _ :: rest =>
      match matchOuterHere s.length s with
      | some (addr, s2) => (addr, s.take (s.length - s2.length)) :: outerExec fuel s2
      | none => outerExec fuel rest

/-- The loop `while (segmentMatch = segmentRegex.exec(contiguousSegmentMatch[0]))`
over the global inner run regex applied to one outer match: leftmost
match, continue after its end. -/
def innerExec (fuel : Nat) (s : List Char) : List RunM :=
  match fuel with
  | 0 => []
  | fuel + 1 =>
    match s with
    | [] => []
    | _ :: rest =>
      match matchRunCore s with
      | some (r, s2) => r :: innerExec fuel s2
      | none => innerExec fuel rest

/-- The `sectorMultipliers` lookup table with its `?? 0` default:
`' '` and `'B'` map to 1, `'K'` to 1024, `'M'` to 1048576. -/
def segMultiplier (u : Char) : Nat :=
  if u = ' ' || u = 'B' then 1
  else if u = 'K' then 1024
  else if u = 'M' then 1048576
  else 0

/-- The body of the inner `while` loop of `parseMemoryDescriptor`: for
each run, push a segment at the running base address and advance the
base by `sectorSize * sectorCount`.  `properties` is
`perm.charCodeAt(0) - 'a'.charCodeAt(0) + 1`. -/
def buildSegs (addr : Nat) : List RunM → List Seg
  | [] => []
  | r :: rs =>
    let size := r.size * segMultiplier r.unit
    let props := r.perm.toNat - 'a'.toNat + 1
    { start := addr
      endAddr := addr + size * r.count
      sectorSize := size
      readable := props &&& 1 != 0
      erasable := props &&& 2 != 0
      writable := props &&& 4 != 0 } :: buildSegs (addr + size * r.count) rs

/-- Segments contributed by the successive outer matches, in order. -/
def segsOfBlocks : List (Nat × List Char) → List Seg
  | [] => []
  | (a, m) :: bs => buildSegs a (innerExec (m.length + 1) m) ++ segsOfBlocks bs

/-- All segments parsed from the part of the descriptor string that
starts at the first '/'. -/
def memSegments (segmentString : List Char) : List Seg :=
  segsOfBlocks (outerExec (segmentString.length + 1) segmentString)

/-- JavaScript `String.prototype.trim` on a character list. -/
def trimChars (l : List Char) : List Char :=
  (((l.dropWhile isWsC).reverse).dropWhile isWsC).reverse

/-- Model of `parseMemoryDescriptor` (src/core.ts lines 105-150): throw
(`none`) when the string does not start with '@' or contains no '/';
otherwise return the trimmed name (the characters between the '@' and
the first '/') and the parsed segments.  The source never fails after
the prefix check, so the segment list of a successful parse may be
empty. -/
def parseMemoryDescriptor (desc : List Char) : Option (List Char × List Seg) :=
  match desc.findIdx? (fun c => c = '/') with
  | none => none
  | some nameEnd =>
    if desc.head? = some '@' then
      some (trimChars ((desc.drop 1).take (nameEnd - 1)), memSegments (desc.drop nameEnd))
    else none

/-- Number of data chunks `do_write` sends for a payload of `n` bytes at
chunk size `C`: the loop `while (bytes_sent < expected_size)` consumes
`min(bytes_left, C)` bytes per iteration.  The source does not terminate
when `C = 0` and `n > 0`; that case is cut off here (the claims assume
`C > 0`). -/
def numChunks (C : Nat) (n : Nat) : Nat :=
  if C = 0 then 0
  else if n = 0 then 0
  else numChunks C (n - C) + 1
termination_by n
decreasing_by
  rename_i hC hn
  have h1 : 0 < C := Nat.pos_of_ne_zero hC
  have h2 : 0 < n := Nat.pos_of_ne_zero hn
  omega

/-- The data-phase loop of `DriverDFU.do_write` (src/dfu.driver.ts lines
48-68) under the assumptions of the claim: every `download` reports the
full chunk as written (`bytes_written = chunk_size`) and every
`poll_until_idle` returns state `dfuDNLOAD_IDLE` with status 0, so the
loop never throws.  Each list entry is one WRITE (DNLOAD) request as the
pair (block number `transaction`, chunk bytes
`data.slice(bytes_sent, bytes_sent + chunk_size)`).  The source does not
terminate when the chunk size is 0 and data remains; that case is cut
off here. -/
def do_write_loop (C : Nat) (data : List Nat) (transaction : Nat) :
    List (Nat × List Nat) :=
  if _hC : C = 0 then []
  else if _hd : data = [] then []
  else (transaction, data.take C) :: do_write_loop C (data.drop C) (transaction + 1)
termination_by data.length
decreasing_by
  simp only [List.length_drop]
  have h1 : 0 < C := Nat.pos_of_ne_zero _hC
  have h2 : 0 < data.length := List.length_pos.mpr _hd
  omega

/-- All WRITE (DNLOAD) requests issued by `DriverDFU.do_write`: the data
chunks at block numbers 0, 1, ..., followed by the final zero-length
WRITE at the next block number (`await this.write(new ArrayBuffer(0),
transaction++)`). -/
def do_write_requests (C : Nat) (data : List Nat) : List (Nat × List Nat) :=
  do_write_loop C data 0 ++ [((do_write_loop C data 0).length, [])]

/-- The loop of `DriverDFU.do_read` (src/dfu.driver.ts lines 17-29), a
do-while: it always runs at least once.  `replies t` is the byte count
the device returns for the UPLOAD with block number `t`, clamped to the
requested length (a control IN transfer cannot return more than asked).
Returns (upload requests as (requested length, block number) pairs,
byte counts of the non-empty result blocks pushed, final `bytes_read`).
The source does not terminate when `bytes_to_read = 0` strictly below
`max_size` (chunk size 0); that case is cut off here. -/
def do_read_loop (xfer maxSize : Nat) (replies : Nat → Nat)
    (t br : Nat) (fuel : Nat) : List (Nat × Nat) × List Nat × Nat :=
  match fuel with
  | 0 => ([], [], br)
  | fuel + 1 =>
    let btr := min xfer (maxSize - br)
    let res := min (replies t) btr
    let (evs, blocks, final) :=
      if br + res < maxSize ∧ res = btr ∧ 0 < btr then
        do_read_loop xfer maxSize replies (t + 1) (br + res) fuel
      else ([], [], br + res)
    ((btr, t) :: evs, (if 0 < res then [res] else []) ++ blocks, final)

/-- Model of `DriverDFU.do_read` with a finite `max_size`: returns the
upload-request trace, the pushed blocks, and whether `abortToIdle` was
issued afterwards (`bytes_read == max_size`).  The returned Blob is
empty exactly when the block list is empty.  `maxSize + 1` iterations
always suffice because each continuing iteration strictly increases
`bytes_read`. -/
def do_read_model (xfer maxSize : Nat) (firstBlock : Nat)
    (replies : Nat → Nat) : List (Nat × Nat) × List Nat × Bool :=
  let r := do_read_loop xfer maxSize replies firstBlock 0 (maxSize + 1)
  (r.1, r.2.1, r.2.2 == maxSize)

/-- A decoded GET_STATUS reply (the object built by
`WebDFUDriver.getStatus`, src/base.driver.ts lines 201-211). -/
structure DfuStatus where
  status : Nat
  pollTimeout : Nat
  state : Nat
deriving DecidableEq

/-- The six bytes of one GET_STATUS reply (each below 256 on a real
device). -/
structure StatusBytes where
  b0 : Nat
  b1 : Nat
  b2 : Nat
  b3 : Nat
  b4 : Nat
  b5 : Nat
deriving DecidableEq

/-- Decoding in `getStatus`: `status = getUint8(0)`,
`pollTimeout = getUint32(1, true) & 0xffffff` (little-endian, so the
mask drops byte 4's contribution), `state = getUint8(4)`. -/
def decodeStatus (r : StatusBytes) : DfuStatus :=
  { status := r.b0
    pollTimeout := (r.b1 + 2 ^ 8 * r.b2 + 2 ^ 16 * r.b3 + 2 ^ 24 * r.b4) % 2 ^ 24
    state := r.b4 }

/-- The decoded report of the `i`-th GET_STATUS issued. -/
def statusAt (replies : Nat → StatusBytes) (i : Nat) : DfuStatus :=
  decodeStatus (replies i)

/-- Exit condition of the `poll_until` loop
(src/base.driver.ts line 242): the predicate holds of the state or the
state is `dfuERROR = 10`. -/
def pollDone (P : Nat → Bool) (r : DfuStatus) : Bool :=
  P r.state || r.state == 10

/-- One event of the `poll_until` trace: a GET_STATUS request (with the
report it returned) or a sleep of `pollTimeout` milliseconds. -/
inductive PollEvent where
  | getStatus (r : DfuStatus)
  | sleep (ms : Nat)
deriving DecidableEq

/-- Model of `WebDFUDriver.poll_until` (src/base.driver.ts lines
230-248): issue GET_STATUS; while the report is not `pollDone`, sleep
its `pollTimeout` and issue GET_STATUS again.  Returns the event trace
and the final report, or `none` when `fuel` polls were not enough (the
source has no iteration bound). -/
def poll_go (P : Nat → Bool) (replies : Nat → StatusBytes) :
    Nat → Nat → Option (List PollEvent × DfuStatus)
  | 0, _ => none
  | fuel + 1, i =>
    let r := statusAt replies i
    if pollDone P r then some ([PollEvent.getStatus r], r)
    else
      match poll_go P replies fuel (i + 1) with
      | none => none
      | some (evs, res) =>
          some (PollEvent.getStatus r :: PollEvent.sleep r.pollTimeout :: evs, res)

/-- `poll_until` starts polling at reply index 0. -/
def poll_until (P : Nat → Bool) (replies : Nat → StatusBytes) (fuel : Nat) :
    Option (List PollEvent × DfuStatus) :=
  poll_go P replies fuel 0

/-- The expected `poll_until` trace when the first `pollDone` report is
the one at index `i + k`: alternating GET_STATUS and sleep events,
ending with the final GET_STATUS. -/
def pollTrace (replies : Nat → StatusBytes) (i : Nat) : Nat → List PollEvent
  | 0 => [PollEvent.getStatus (statusAt replies i)]
  | k + 1 =>
      PollEvent.getStatus (statusAt replies i) ::
      PollEvent.sleep (statusAt replies i).pollTimeout ::
      pollTrace replies (i + 1) k

/-- Total milliseconds slept in a poll trace. -/
def sleepSum (l : List PollEvent) : Nat :=
  (l.map (fun e => match e with
    | PollEvent.sleep ms => ms
    | _ => 0)).sum

/-- Number of GET_STATUS requests in a poll trace. -/
def countGetStatus (l : List PollEvent) : Nat :=
  l.countP (fun e => match e with
    | PollEvent.getStatus _ => true
    | _ => false)

/-- Model of `DriverDFU.getDfuseSegment` (src/unnamed/part_008 lines
466-478): the first segment with `start <= addr < end`, `none` when the
address is outside the map. -/
def getDfuseSegment (segs : List Seg) (addr : Nat) : Option Seg :=
  segs.find? (fun s => s.start ≤ addr && addr < s.endAddr)

/-- Segment lookup at a possibly negative address (the source computes
`startAddr + length - 1`, which is -1 for a zero-length erase at
address 0; no segment contains a negative address). -/
def getDfuseSegmentI (segs : List Seg) (addr : Int) : Option Seg :=
  segs.find? (fun s => (s.start : Int) ≤ addr && addr < (s.endAddr : Int))

/-- Sector start containing `addr` inside `segment`
(`getDfuseSectorStart`): `segment.start + floor((addr - segment.start) /
segment.sectorSize) * segment.sectorSize`. -/
def dfuseSectorStart (seg : Seg) (addr : Nat) : Nat :=
  seg.start + ((addr - seg.start) / seg.sectorSize) * seg.sectorSize

/-- Sector end containing `addr` inside `segment` (`getDfuseSectorEnd`):
one sector size above the sector start. -/
def dfuseSectorEnd (seg : Seg) (addr : Nat) : Nat :=
  seg.start + ((addr - seg.start) / seg.sectorSize + 1) * seg.sectorSize

/-- The `while (addr < endAddr)` loop of `DriverDFU.erase`
(src/unnamed/part_008 lines 558-577), under the claims' assumption that
every ERASE_SECTOR command polls to a non-busy state with status 0.
Returns the ERASE_SECTOR target addresses in order.  `segOpt` is the
mutable `segment` variable; `bytesErased` only feeds `logProgress` and
is therefore not returned (its clamped update uses truncated
subtraction where JS arithmetic would go negative only in runs that end
in fuel exhaustion anyway).  `fuel` bounds the iterations: the source
loops forever (or issues NaN addresses) on maps with `sectorSize = 0`
or with gaps before `endAddr`; those runs end in `.error`. -/
def eraseLoop (segs : List Seg) (endAddr bytesToErase : Nat) :
    Option Seg → Nat → Nat → Nat → Except String (List Nat)
  | _, _, _, 0 => Except.error "eraseLoop: out of fuel (source would not terminate)"
  | segOpt, addr, bytesErased, fuel + 1 =>
    if addr < endAddr then
      let segOpt := if (segOpt.map Seg.endAddr).getD 0 ≤ addr
        then getDfuseSegment segs addr else segOpt
      match segOpt with
      | some seg =>
        if seg.erasable then
          if seg.sectorSize = 0 then
            Except.error "eraseLoop: sectorSize 0 (source computes NaN here)"
          else
            let sectorAddr := dfuseSectorStart seg addr
            match eraseLoop segs endAddr bytesToErase (some seg)
                (sectorAddr + seg.sectorSize) (bytesErased + seg.sectorSize) fuel with
            | Except.error e => Except.error e
            | Except.ok cmds => Except.ok (sectorAddr :: cmds)
        else
          eraseLoop segs endAddr bytesToErase (some seg) seg.endAddr
            (min (bytesErased + (seg.endAddr - addr)) bytesToErase) fuel
      | none =>
        -- `segment?.end ?? 0` makes the source jump to address 0 here
        eraseLoop segs endAddr bytesToErase none 0
          (min bytesErased bytesToErase) fuel
    else Except.ok []

/-- Model of `DriverDFU.erase(startAddr, length)` (src/unnamed/part_008
lines 543-578).  Returns the list of ERASE_SECTOR addresses issued, in
order, together with `bytesToErase = endAddr - addr`, the total that
every `EraseProgress` report is measured against.  Errors model the
`WebDFUError` throws of `getDfuseSectorStart` / `getDfuseSectorEnd`
when an address is outside the map (plus the NaN/non-termination
cut-offs described at `eraseLoop`). -/
def dfuse_erase (segs : List Seg) (startAddr len : Nat) (fuel : Nat) :
    Except String (List Nat × Nat) :=
  match getDfuseSegment segs startAddr with
  | none => Except.error "address outside of memory map"
  | some seg0 =>
    if seg0.sectorSize = 0 then
      Except.error "sectorSize 0 (source computes NaN here)"
    else
      let addr := dfuseSectorStart seg0 startAddr
      match getDfuseSegmentI segs ((startAddr : Int) + (len : Int) - 1) with
      | none => Except.error "address outside of memory map"
      | some seg1 =>
        if seg1.sectorSize = 0 then
          Except.error "sectorSize 0 (source computes NaN here)"
        else
          let lastAddr := ((startAddr : Int) + (len : Int) - 1).toNat
          let endAddr := dfuseSectorEnd seg1 lastAddr
          match eraseLoop segs endAddr (endAddr - addr) (some seg0) addr 0 fuel with
          | Except.error e => Except.error e
          | Except.ok cmds => Except.ok (cmds, endAddr - addr)

/-- One observable command of a DfuSe write, at the granularity the
claims speak about: the two special commands issued through
`dfuseCommand` (a DNLOAD at block 0 whose 5-byte payload is the command
byte plus a little-endian u32 parameter, followed by a poll), and the
plain data DNLOAD requests issued directly through `download`. -/
inductive DfuseEvent where
  | eraseSector (addr : Nat)
  | setAddress (addr : Nat)
  | write (block : Nat) (payload : List Nat)
deriving DecidableEq

/-- Payload size a trace event contributes to `bytes_sent`. -/
def evPayloadLen : DfuseEvent → Nat
  | DfuseEvent.write _ p => p.length
  | _ => 0

/-- Write-event test on a DfuSe trace event. -/
def isWriteEv : DfuseEvent → Bool
  | DfuseEvent.write _ _ => true
  | _ => false

/-- Total payload bytes of the WRITE events of a trace. -/
def sumWrites (l : List DfuseEvent) : Nat :=
  (l.map evPayloadLen).sum

/-- Resolution of the DfuSe start address in `do_dfuse_write`
(src/unnamed/part_008 lines 382-394): `dfuseStartAddress` when set
(`none` models the `NaN` default); otherwise the first segment's start,
where the source's falsy test `!startAddress` also rejects a first
segment starting at address 0.  An explicitly set address outside the
map is an error. -/
def resolveStart (segs : List Seg) (saddr : Option Nat) : Except String Nat :=
  match saddr with
  | none =>
    match segs.head? with
    | none => Except.error "startAddress not found"
    | some s0 => if s0.start = 0 then Except.error "startAddress not found"
                 else Except.ok s0.start
  | some a =>
    if (getDfuseSegment segs a).isNone then
      Except.error "start address outside of memory map bounds"
    else Except.ok a

/-- The data loop of `do_dfuse_write` (src/unnamed/part_008 lines
400-423) under the claims' assumptions (every `download` reports the
full chunk written, every poll returns `dfuDNLOAD_IDLE` with status 0):
per chunk, a SET_ADDRESS command at the running address followed by the
data DNLOAD at block 2; the address advances by the chunk size.  `fuel`
is consumed once per chunk; `data.length` is enough whenever the chunk
size is positive. -/
def dfuse_write_loop (C : Nat) : Nat → Nat → List Nat → List DfuseEvent
  | 0, _, _ => []
  | _, _, [] => []
  | fuel + 1, addr, d :: ds =>
    DfuseEvent.setAddress addr ::
    DfuseEvent.write 2 ((d :: ds).take C) ::
    dfuse_write_loop C fuel (addr + min (d :: ds).length C) ((d :: ds).drop C)

/-- Model of `DriverDFU.do_dfuse_write(xfer_size, data)`
(src/unnamed/part_008 lines 372-435) as the trace of DfuSe commands and
DNLOAD requests it issues, under the claims' assumptions on the device
(all polls succeed with status 0, downloads report the full chunk).
After the memory-map check and start-address resolution, the erase plan
runs over `(startAddress, data.byteLength)`; then the data loop; then
the manifest sequence `SET_ADDRESS(startAddress)` followed by the empty
DNLOAD at block 0.  The source does not terminate when `xfer_size = 0`
and data is non-empty; that case is an error here. -/
def do_dfuse_write (info : Option (List Seg)) (saddr : Option Nat)
    (C : Nat) (data : List Nat) (fuel : Nat) : Except String (List DfuseEvent) :=
  match info with
  | none => Except.error "No memory map available"
  | some segs =>
    match resolveStart segs saddr with
    | Except.error e => Except.error e
    | Except.ok st =>
      match dfuse_erase segs st data.length fuel with
      | Except.error e => Except.error e
      | Except.ok (cmds, _) =>
        if C = 0 ∧ data ≠ [] then
          Except.error "xfer_size 0 (source would not terminate)"
        else
          Except.ok (cmds.map DfuseEvent.eraseSector ++
            dfuse_write_loop C data.length st data ++
            [DfuseEvent.setAddress st, DfuseEvent.write 0 []])

/-- Errors a `parseSubDescriptors` walk can end in: `rangeError` models
the JS `RangeError` thrown by `DataView.getUint8` when an interface or
functional record's data is shorter than the 9 bytes its parser reads;
`divergence` marks a record with `bLength = 0`, on which the source's
loop never advances. -/
inductive DescErr where
  | rangeError
  | divergence
deriving DecidableEq

/-- Parsed interface descriptor, `parseInterfaceDescriptor`
(src/core.ts lines 182-195); the mutable per-interface child list is
omitted: the claims concern only the walk's control flow. -/
structure IntfDesc where
  bLength : Nat
  bDescriptorType : Nat
  bInterfaceNumber : Nat
  bAlternateSetting : Nat
  bNumEndpoints : Nat
  bInterfaceClass : Nat
  bInterfaceSubClass : Nat
  bInterfaceProtocol : Nat
  iInterface : Nat
deriving DecidableEq

/-- Parsed DFU functional descriptor, `parseFunctionalDescriptor`
(src/core.ts lines 171-180). -/
structure FuncDesc where
  bLength : Nat
  bDescriptorType : Nat
  bmAttributes : Nat
  wDetachTimeOut : Nat
  wTransferSize : Nat
  bcdDFUVersion : Nat
deriving DecidableEq

/-- One record produced by the sub-descriptor walk. -/
inductive SubDesc where
  | intf (d : IntfDesc)
  | functional (d : FuncDesc)
  | other (bLength : Nat) (bDescriptorType : Nat) (descData : List Nat)
deriving DecidableEq

/-- `parseInterfaceDescriptor` on a sliced record: reads bytes 0-8, so a
record shorter than 9 bytes throws `RangeError`. -/
def parseIntfDesc (l : List Nat) : Except DescErr IntfDesc :=
  if l.length < 9 then Except.error DescErr.rangeError
  else Except.ok ⟨l.getD 0 0, l.getD 1 0, l.getD 2 0, l.getD 3 0, l.getD 4 0,
    l.getD 5 0, l.getD 6 0, l.getD 7 0, l.getD 8 0⟩

/-- `parseFunctionalDescriptor` on a sliced record: reads bytes 0-8
(`getUint16(7, true)` needs bytes 7 and 8), so a record shorter than 9
bytes throws `RangeError`. -/
def parseFuncDesc (l : List Nat) : Except DescErr FuncDesc :=
  if l.length < 9 then Except.error DescErr.rangeError
  else Except.ok ⟨l.getD 0 0, l.getD 1 0, l.getD 2 0,
    l.getD 3 0 + 256 * l.getD 4 0, l.getD 5 0 + 256 * l.getD 6 0,
    l.getD 7 0 + 256 * l.getD 8 0⟩

/-- Model of the `while (remainingData.byteLength > 2)` walk of
`parseSubDescriptors` (src/core.ts lines 197-240, identical in
src/base.driver.ts).  `inDfu` is the `inDfuIntf` flag.  Each iteration
reads `bLength` and `bDescriptorType`, slices `descData = take bLength`
(clamped to the remaining buffer, as `ArrayBuffer.slice` clamps),
classifies the record (INTERFACE = 4 re-sets the flag to
`class == 0xFE && subclass == 0x01`; FUNCTIONAL = 0x21 only inside a
DFU interface), then advances by `bLength`.  No malformed-descriptor
error exists in the source: short records are consumed as they are and
`bLength = 0` never advances, which is cut off as `divergence`. -/
def subDescGo (bytes : List Nat) (inDfu : Bool) : Except DescErr (List SubDesc) :=
  if _h : bytes.length ≤ 2 then Except.ok []
  else
    let bLength := bytes.getD 0 0
    let bType := bytes.getD 1 0
    let descData := bytes.take bLength
    let step : Except DescErr (SubDesc × Bool) :=
      if bType = 4 then
        (parseIntfDesc descData).map (fun d =>
          (SubDesc.intf d, d.bInterfaceClass = 0xfe && d.bInterfaceSubClass = 1))
      else if inDfu && bType = 0x21 then
        (parseFuncDesc descData).map (fun d => (SubDesc.functional d, inDfu))
      else Except.ok (SubDesc.other bLength bType descData, inDfu)
    match step with
    | Except.error e => Except.error e
    | Except.ok (d, inDfu2) =>
      if _h0 : bLength = 0 then Except.error DescErr.divergence
      else (subDescGo (bytes.drop bLength) inDfu2).map (fun l => d :: l)
termination_by bytes.length
decreasing_by
  simp only [List.length_drop]
  omega

/-- `parseSubDescriptors` starts with the flag down. -/
def parseSubDescriptors (bytes : List Nat) : Except DescErr (List SubDesc) :=
  subDescGo bytes false

/-! Helper lemmas about the plain-DFU write loop. -/

theorem numChunks_zero (C : Nat) : numChunks C 0 = 0 := by
  rw [numChunks]
  simp

theorem numChunks_step (C n : Nat) (hC : C ≠ 0) (hn : n ≠ 0) :
    numChunks C n = numChunks C (n - C) + 1 := by
  conv_lhs => rw [numChunks]
  rw [if_neg hC, if_neg hn]

theorem numChunks_eq_ceil (C : Nat) (hC : 0 < C) (n : Nat) :
    numChunks C n = (n + C - 1) / C := by
  induction n using Nat.strong_induction_on with
  | _ n ih =>
    by_cases hn : n = 0
    · subst hn
      rw [numChunks_zero]
      symm
      exact Nat.div_eq_of_lt (by omega)
    · rw [numChunks_step C n (by omega) hn,
        ih (n - C) (by omega),
        show n + C - 1 = (n - 1) + C from by omega,
        Nat.add_div_right _ hC]
      by_cases hcn : C ≤ n
      · rw [show n - C + C - 1 = (n - 1) + C - C from by omega]
        simp
      · rw [show n - C = 0 from by omega]
        rw [Nat.div_eq_of_lt (by omega), Nat.div_eq_of_lt (by omega)]

theorem do_write_loop_nil (C t : Nat) : do_write_loop C [] t = [] := by
  rw [do_write_loop]
  simp

theorem do_write_loop_cons (C t : Nat) (data : List Nat) (hC : C ≠ 0) (hd : data ≠ []) :
    do_write_loop C data t = (t, data.take C) :: do_write_loop C (data.drop C) (t + 1) := by
  rw [do_write_loop]
  rw [dif_neg hC, dif_neg hd]

theorem do_write_loop_eq (C : Nat) (hC : 0 < C) :
    ∀ (n : Nat) (data : List Nat), data.length ≤ n → ∀ t,
      do_write_loop C data t =
        (List.range (numChunks C data.length)).map
          (fun i => (t + i, (data.drop (i * C)).take C)) := by
  intro n
  induction n with
  | zero =>
    intro data h t
    have hd : data = [] := List.eq_nil_of_length_eq_zero (by omega)
    subst hd
    simp [do_write_loop_nil, numChunks_zero]
  | succ n ih =>
    intro data h t
    by_cases hd : data = []
    · subst hd
      simp [do_write_loop_nil, numChunks_zero]
    · rw [do_write_loop_cons C t data (by omega) hd,
        ih (data.drop C) (by simp; omega) (t + 1),
        numChunks_step C data.length (by omega) (by simpa using hd),
        List.range_succ_eq_map, List.map_cons, List.map_map]
      simp only [List.length_drop]
      congr 1
      · simp
      · apply List.map_congr_left
        intro i _
        simp only [Function.comp_apply, List.drop_drop, Prod.mk.injEq, Nat.succ_mul]
        exact ⟨by omega, by rw [Nat.add_comm (i * C) C]⟩

/-- C1: for every plain DFU write of a buffer of `N` bytes with chunk
size `C > 0`, assuming every DNLOAD reports the full chunk written and
every poll returns `dfuDNLOAD_IDLE` with status 0, `do_write` issues
exactly `ceil(N/C) + 1` WRITE requests: the first `ceil(N/C)` carry the
successive chunks in order at block numbers `0 .. ceil(N/C) - 1`, and
the final request carries zero bytes at block number `ceil(N/C)`; a
write of an empty buffer issues exactly the one empty WRITE at block 0. -/
theorem c1_plain_write_requests (C : Nat) (data : List Nat) (hC : 0 < C) :
    do_write_requests C data =
      (List.range ((data.length + C - 1) / C)).map
        (fun i => (i, (data.drop (i * C)).take C)) ++
      [((data.length + C - 1) / C, [])] ∧
    do_write_requests C [] = [(0, [])] := by
  constructor
  · have hloop := do_write_loop_eq C hC data.length data le_rfl 0
    have hceil := numChunks_eq_ceil C hC data.length
    unfold do_write_requests
    rw [hloop, hceil]
    simp only [Nat.zero_add, List.length_map, List.length_range]
  · unfold do_write_requests
    rw [do_write_loop_nil]
    simp

theorem c1_plain_write_requests_witness :
    do_write_requests 4 [1, 2, 3, 4, 5, 6, 7, 8, 9, 10] =
      (List.range ((([1, 2, 3, 4, 5, 6, 7, 8, 9, 10] : List Nat).length + 4 - 1) / 4)).map
        (fun i => (i, (([1, 2, 3, 4, 5, 6, 7, 8, 9, 10] : List Nat).drop (i * 4)).take 4)) ++
      [((([1, 2, 3, 4, 5, 6, 7, 8, 9, 10] : List Nat).length + 4 - 1) / 4, [])] ∧
    do_write_requests 4 [] = [(0, [])] :=
  c1_plain_write_requests 4 [1, 2, 3, 4, 5, 6, 7, 8, 9, 10] (by decide)

/-! Helper lemmas about the `poll_until` loop. -/

theorem poll_go_spec (P : Nat → Bool) (replies : Nat → StatusBytes) :
    ∀ (k i fuel : Nat), k < fuel →
      (∀ j, j < k → pollDone P (statusAt replies (i + j)) = false) →
      pollDone P (statusAt replies (i + k)) = true →
      poll_go P replies fuel i = some (pollTrace replies i k, statusAt replies (i + k)) := by
  intro k
  induction k with
  | zero =>
    intro i fuel hf _ hd
    obtain ⟨f, rfl⟩ : ∃ f, fuel = f + 1 := ⟨fuel - 1, by omega⟩
    simp only [Nat.add_zero] at hd
    simp [poll_go, hd, pollTrace]
  | succ k ih =>
    intro i fuel hf hj hd
    obtain ⟨f, rfl⟩ : ∃ f, fuel = f + 1 := ⟨fuel - 1, by omega⟩
    have h0 : pollDone P (statusAt replies i) = false := by
      simpa using hj 0 (by omega)
    have hrec := ih (i + 1) f (by omega)
      (fun j hjk => by
        rw [show i + 1 + j = i + (j + 1) from by omega]
        exact hj (j + 1) (by omega))
      (by rw [show i + 1 + k = i + (k + 1) from by omega]; exact hd)
    simp [poll_go, h0, hrec, pollTrace, show i + 1 + k = i + (k + 1) from by omega]

theorem countGetStatus_pollTrace (replies : Nat → StatusBytes) :
    ∀ k i, countGetStatus (pollTrace replies i k) = k + 1 := by
  intro k
  induction k with
  | zero => intro i; simp [pollTrace, countGetStatus]
  | succ k ih =>
    intro i
    simp only [pollTrace, countGetStatus, List.countP_cons] at ih ⊢
    rw [ih (i + 1)]
    simp

theorem sleepSum_pollTrace (replies : Nat → StatusBytes) :
    ∀ k i, sleepSum (pollTrace replies i k) =
      ((List.range k).map (fun j => (statusAt replies (i + j)).pollTimeout)).sum := by
  intro k
  induction k with
  | zero => intro i; simp [pollTrace, sleepSum]
  | succ k ih =>
    intro i
    simp only [pollTrace, sleepSum, List.map_cons, List.sum_cons] at ih ⊢
    rw [ih (i + 1), List.range_succ_eq_map, List.map_cons, List.sum_cons, List.map_map]
    simp only [Nat.zero_add, Nat.add_zero]
    congr 2
    apply List.map_congr_left
    intro j _
    simp only [Function.comp_apply]
    rw [show i + 1 + j = i + Nat.succ j from by omega]

/-- C4: `poll_until(P)` issues one GET_STATUS, then one more per
iteration after sleeping for the `pollTimeout` of the report just
received, returning the first report whose state satisfies `P` or is
`dfuERROR = 10` (here the report at index `k`); the trace alternates
GET_STATUS and sleep events, the number of GET_STATUS requests is
`k + 1`, and the total sleep is the sum of the `pollTimeout` fields of
all reports received minus that of the last one. -/
theorem c4_poll_until (P : Nat → Bool) (replies : Nat → StatusBytes) (k fuel : Nat)
    (hf : k < fuel)
    (hk : ∀ j, j < k → pollDone P (statusAt replies j) = false)
    (hd : pollDone P (statusAt replies k) = true) :
    poll_until P replies fuel = some (pollTrace replies 0 k, statusAt replies k) ∧
    countGetStatus (pollTrace replies 0 k) = k + 1 ∧
    sleepSum (pollTrace replies 0 k) =
      ((List.range (k + 1)).map (fun j => (statusAt replies j).pollTimeout)).sum -
        (statusAt replies k).pollTimeout := by
  refine ⟨?_, countGetStatus_pollTrace replies k 0, ?_⟩
  · have h := poll_go_spec P replies k 0 fuel hf
      (fun j hjk => by simpa using hk j hjk) (by simpa using hd)
    simpa [poll_until] using h
  · rw [sleepSum_pollTrace replies k 0, List.range_succ, List.map_append, List.sum_append]
    simp

theorem c4_poll_until_witness :
    poll_until (fun s => s == 5)
        (fun i => if i < 2 then ⟨0, 100, 0, 0, 4, 0⟩ else ⟨0, 50, 0, 0, 5, 0⟩) 10 =
      some (pollTrace (fun i => if i < 2 then ⟨0, 100, 0, 0, 4, 0⟩ else ⟨0, 50, 0, 0, 5, 0⟩) 0 2,
        statusAt (fun i => if i < 2 then ⟨0, 100, 0, 0, 4, 0⟩ else ⟨0, 50, 0, 0, 5, 0⟩) 2) ∧
    countGetStatus (pollTrace (fun i => if i < 2 then ⟨0, 100, 0, 0, 4, 0⟩ else ⟨0, 50, 0, 0, 5, 0⟩) 0 2) = 2 + 1 ∧
    sleepSum (pollTrace (fun i => if i < 2 then ⟨0, 100, 0, 0, 4, 0⟩ else ⟨0, 50, 0, 0, 5, 0⟩) 0 2) =
      ((List.range (2 + 1)).map (fun j =>
        (statusAt (fun i => if i < 2 then ⟨0, 100, 0, 0, 4, 0⟩ else ⟨0, 50, 0, 0, 5, 0⟩) j).pollTimeout)).sum -
        (statusAt (fun i => if i < 2 then ⟨0, 100, 0, 0, 4, 0⟩ else ⟨0, 50, 0, 0, 5, 0⟩) 2).pollTimeout :=
  c4_poll_until (fun s => s == 5)
    (fun i => if i < 2 then ⟨0, 100, 0, 0, 4, 0⟩ else ⟨0, 50, 0, 0, 5, 0⟩) 2 10
    (by omega)
    (fun j hjk => by
      interval_cases j <;> decide)
    (by decide)

/-- C5 counterexample: `do_read` is a do-while loop, so with
`max_size = 0` it still issues one UPLOAD request (of requested length
0, at the first block number) before the loop condition is checked —
the claim that no UPLOAD is issued is false on the code. -/
theorem c5_read_zero_counterexample :
    (do_read_model 1024 0 0 (fun _ => 0)).1 = [(0, 0)] ∧
    (do_read_model 1024 0 0 (fun _ => 0)).1 ≠ [] := by
  constructor
  · rfl
  · intro h
    simp [do_read_model, do_read_loop] at h

/-- C5 (amended): a plain DFU read with `max_size = 0` returns an empty
buffer (no block is pushed), after issuing exactly one UPLOAD request of
requested length 0 at the first block number and then `abortToIdle`
(because `bytes_read == max_size`). -/
theorem c5_read_zero_amended (xfer firstBlock : Nat) (replies : Nat → Nat) :
    do_read_model xfer 0 firstBlock replies = ([(0, firstBlock)], [], true) := by
  simp [do_read_model, do_read_loop]


theorem dfuse_write_loop_nil (C f addr : Nat) : dfuse_write_loop C f addr [] = [] := by
  cases f <;> simp [dfuse_write_loop]

theorem writes_tail_only (a0 addr : Nat) :
    ∀ i b p,
      ([DfuseEvent.setAddress a0, DfuseEvent.write 0 []] : List DfuseEvent)[i]? =
        some (DfuseEvent.write b p) → p ≠ [] →
      b = 2 ∧ 1 ≤ i ∧
      ([DfuseEvent.setAddress a0, DfuseEvent.write 0 []] : List DfuseEvent)[i-1]? =
        some (DfuseEvent.setAddress (addr + sumWrites
          (([DfuseEvent.setAddress a0, DfuseEvent.write 0 []] : List DfuseEvent).take i))) := by
  intro i b p h hp
  rcases i with _ | _ | i
  · simp at h
  · simp at h
    exact absurd h.2 hp
  · simp at h

theorem dfuse_loop_writes (C a0 : Nat) :
    ∀ (f : Nat) (data : List Nat) (addr : Nat), data.length ≤ f → (data = [] ∨ C ≠ 0) →
      ∀ i b p,
        (dfuse_write_loop C f addr data ++
          [DfuseEvent.setAddress a0, DfuseEvent.write 0 []])[i]? =
            some (DfuseEvent.write b p) → p ≠ [] →
        b = 2 ∧ 1 ≤ i ∧
        (dfuse_write_loop C f addr data ++
          [DfuseEvent.setAddress a0, DfuseEvent.write 0 []])[i-1]? =
          some (DfuseEvent.setAddress (addr + sumWrites
            ((dfuse_write_loop C f addr data ++
              [DfuseEvent.setAddress a0, DfuseEvent.write 0 []]).take i))) := by
  intro f
  induction f with
  | zero =>
    intro data addr hlen _ i b p h hp
    have hdata : data = [] := by
      cases data with
      | nil => rfl
      | cons d ds => simp at hlen
    subst hdata
    rw [dfuse_write_loop_nil, List.nil_append] at h ⊢
    exact writes_tail_only a0 addr i b p h hp
  | succ f ih =>
    intro data addr hlen hCd i b p h hp
    cases data with
    | nil =>
      rw [dfuse_write_loop_nil, List.nil_append] at h ⊢
      exact writes_tail_only a0 addr i b p h hp
    | cons d ds =>
      have hC : C ≠ 0 := by
        rcases hCd with hnil | hC
        · exact absurd hnil (by simp)
        · exact hC
      have hstep : dfuse_write_loop C (f + 1) addr (d :: ds) =
          DfuseEvent.setAddress addr ::
          DfuseEvent.write 2 ((d :: ds).take C) ::
          dfuse_write_loop C f (addr + min (d :: ds).length C) ((d :: ds).drop C) := by
        simp [dfuse_write_loop]
      rw [hstep] at h ⊢
      simp only [List.cons_append] at h ⊢
      rcases i with _ | _ | j
      · simp at h
      · simp only [List.getElem?_cons_succ, List.getElem?_cons_zero, Option.some.injEq,
          DfuseEvent.write.injEq] at h
        refine ⟨h.1.symm, by omega, ?_⟩
        simp [sumWrites, evPayloadLen]
      · simp only [List.getElem?_cons_succ] at h
        have hdrop : ((d :: ds).drop C).length ≤ f := by
          simp only [List.length_drop]
          have : 0 < C := Nat.pos_of_ne_zero hC
          simp at hlen ⊢
          omega
        obtain ⟨hb, hj1, hpre⟩ :=
          ih ((d :: ds).drop C) (addr + min (d :: ds).length C) hdrop (Or.inr hC) j b p h hp
        refine ⟨hb, by omega, ?_⟩
        obtain ⟨m, rfl⟩ : ∃ m, j = m + 1 := ⟨j - 1, by omega⟩
        simp only [Nat.add_sub_cancel] at hpre
        simp only [show m + 1 + 2 - 1 = m + 1 + 1 from by omega, List.getElem?_cons_succ]
        rw [hpre]
        simp only [Option.some.injEq, DfuseEvent.setAddress.injEq]
        simp only [show m + 1 + 2 = (m + 1) + 1 + 1 from by omega, List.take_succ_cons]
        simp only [sumWrites, List.map_cons, List.sum_cons, evPayloadLen, List.length_take]
        have : min C (d :: ds).length = min (d :: ds).length C := Nat.min_comm _ _
        omega

theorem writes_lift (E rest : List DfuseEvent) (base : Nat)
    (hE : ∀ e ∈ E, isWriteEv e = false)
    (hrest : ∀ j b p, rest[j]? = some (DfuseEvent.write b p) → p ≠ [] →
      b = 2 ∧ 1 ≤ j ∧
      rest[j-1]? = some (DfuseEvent.setAddress (base + sumWrites (rest.take j)))) :
    ∀ i b p, (E ++ rest)[i]? = some (DfuseEvent.write b p) → p ≠ [] →
      b = 2 ∧ 1 ≤ i ∧
      (E ++ rest)[i-1]? =
        some (DfuseEvent.setAddress (base + sumWrites ((E ++ rest).take i))) := by
  intro i b p h hp
  by_cases hi : i < E.length
  · rw [List.getElem?_append_left hi] at h
    have hm : DfuseEvent.write b p ∈ E := List.getElem?_mem h
    have := hE _ hm
    simp [isWriteEv] at this
  · push_neg at hi
    rw [List.getElem?_append_right hi] at h
    obtain ⟨hb, hj1, hpre⟩ := hrest (i - E.length) b p h hp
    have hi1 : 1 ≤ i := by omega
    refine ⟨hb, hi1, ?_⟩
    rw [List.getElem?_append_right (show E.length ≤ i - 1 from by omega),
      show i - 1 - E.length = i - E.length - 1 from by omega, hpre]
    have hsum : sumWrites ((E ++ rest).take i) = sumWrites (rest.take (i - E.length)) := by
      rw [List.take_append_eq_append_take, List.take_of_length_le (by omega)]
      simp only [sumWrites, List.map_append, List.sum_append]
      have hzero : (E.map evPayloadLen).sum = 0 := by
        apply List.sum_eq_zero
        intro x hx
        simp only [List.mem_map] at hx
        obtain ⟨e, he, rfl⟩ := hx
        have := hE e he
        cases e <;> simp_all [isWriteEv, evPayloadLen]
      omega
    rw [hsum]

/-- C7: in every completed DfuSe write, every WRITE (DNLOAD) request
that carries data is issued with block number 2 and is immediately
preceded by a SET_ADDRESS command whose parameter is the resolved start
address plus the number of data bytes already sent (the sum of the
payload sizes of the earlier data WRITEs). -/
theorem c7_dfuse_write_set_address (segs : List Seg) (saddr : Option Nat)
    (C : Nat) (data : List Nat) (fuel : Nat) (tr : List DfuseEvent) (st : Nat)
    (hrun : do_dfuse_write (some segs) saddr C data fuel = Except.ok tr)
    (hst : resolveStart segs saddr = Except.ok st) :
    ∀ i b p, tr[i]? = some (DfuseEvent.write b p) → p ≠ [] →
      b = 2 ∧ 1 ≤ i ∧
      tr[i-1]? = some (DfuseEvent.setAddress (st + sumWrites (tr.take i))) := by
  simp only [do_dfuse_write, hst] at hrun
  cases herase : dfuse_erase segs st data.length fuel with
  | error e =>
    simp only [herase] at hrun
    exact absurd hrun (by simp)
  | ok pr =>
    obtain ⟨cmds, total⟩ := pr
    simp only [herase] at hrun
    by_cases hguard : C = 0 ∧ data ≠ []
    · rw [if_pos hguard] at hrun
      simp at hrun
    · rw [if_neg hguard] at hrun
      simp only [Except.ok.injEq] at hrun
      have htr : tr = cmds.map DfuseEvent.eraseSector ++
          (dfuse_write_loop C data.length st data ++
            [DfuseEvent.setAddress st, DfuseEvent.write 0 []]) := by
        rw [← hrun, List.append_assoc]
      have hCd : data = [] ∨ C ≠ 0 := by
        by_cases hc : C = 0
        · left
          by_contra hne
          exact hguard ⟨hc, hne⟩
        · right
          exact hc
      subst htr
      exact writes_lift _ _ st
        (by
          intro e he
          simp only [List.mem_map] at he
          obtain ⟨a, _, rfl⟩ := he
          rfl)
        (dfuse_loop_writes C st data.length data st le_rfl hCd)

theorem c7_dfuse_write_set_address_witness :
    2 = 2 ∧ 1 ≤ 2 ∧
    ([DfuseEvent.eraseSector 0x100, DfuseEvent.setAddress 0x100,
      DfuseEvent.write 2 [1, 2], DfuseEvent.setAddress 0x102,
      DfuseEvent.write 2 [3], DfuseEvent.setAddress 0x100,
      DfuseEvent.write 0 []] : List DfuseEvent)[2-1]? =
      some (DfuseEvent.setAddress (0x100 + sumWrites
        (([DfuseEvent.eraseSector 0x100, DfuseEvent.setAddress 0x100,
          DfuseEvent.write 2 [1, 2], DfuseEvent.setAddress 0x102,
          DfuseEvent.write 2 [3], DfuseEvent.setAddress 0x100,
          DfuseEvent.write 0 []] : List DfuseEvent).take 2))) :=
  c7_dfuse_write_set_address
    [⟨0x100, 0x500, 0x100, true, true, true⟩] (some 0x100) 2 [1, 2, 3] 16
    [DfuseEvent.eraseSector 0x100, DfuseEvent.setAddress 0x100,
      DfuseEvent.write 2 [1, 2], DfuseEvent.setAddress 0x102,
      DfuseEvent.write 2 [3], DfuseEvent.setAddress 0x100,
      DfuseEvent.write 0 []] 0x100
    (by rfl) (by rfl) 2 2 [1, 2] (by rfl) (by decide)

/-- C3 counterexample: on the map with an erasable region
`[0x0, 0x1000)`, a non-erasable region `[0x1000, 0x1400)` and an
erasable region `[0x1400, 0x2400)` (sector size 0x400 throughout), the
erase plan for start 0x0 and length 0x2000 does not issue the command
list the claim states: no ERASE_SECTOR is issued at 0x2000, because the
loop stops at `endAddr = sector_end_of(0x1FFF) = 0x2000`. -/
theorem c3_erase_counterexample :
    dfuse_erase
        [⟨0x0, 0x1000, 0x400, true, true, true⟩,
         ⟨0x1000, 0x1400, 0x400, true, false, true⟩,
         ⟨0x1400, 0x2400, 0x400, true, true, true⟩] 0x0 0x2000 64 ≠
      Except.ok ([0x0, 0x400, 0x800, 0xC00, 0x1400, 0x1800, 0x1C00, 0x2000], 0x2000) := by
  intro h
  rw [show dfuse_erase
      [⟨0x0, 0x1000, 0x400, true, true, true⟩,
       ⟨0x1000, 0x1400, 0x400, true, false, true⟩,
       ⟨0x1400, 0x2400, 0x400, true, true, true⟩] 0x0 0x2000 64 =
    Except.ok ([0x0, 0x400, 0x800, 0xC00, 0x1400, 0x1800, 0x1C00], 0x2000) from rfl] at h
  simp at h

/-- C3 (amended): on that map, the erase plan for start 0x0 and length
0x2000 issues ERASE_SECTOR at exactly 0x0, 0x400, 0x800, 0xC00, 0x1400,
0x1800, 0x1C00 in that order — skipping the non-erasable region
`[0x1000, 0x1400)` without a command and issuing nothing at 0x2000 —
and the erase-progress total is 0x2000 bytes. -/
theorem c3_erase_commands :
    dfuse_erase
        [⟨0x0, 0x1000, 0x400, true, true, true⟩,
         ⟨0x1000, 0x1400, 0x400, true, false, true⟩,
         ⟨0x1400, 0x2400, 0x400, true, true, true⟩] 0x0 0x2000 64 =
      Except.ok ([0x0, 0x400, 0x800, 0xC00, 0x1400, 0x1800, 0x1C00], 0x2000) := by
  rfl

/-- C8 counterexample: the input [1, 5, 0, 0] starts with a record
declaring `bLength = 1 < 2` and continues with a record declaring
`bLength = 5`, which exceeds the 3 remaining bytes; yet the walk
raises no malformed-descriptor error and returns a descriptor list
(the short record as a 1-byte opaque blob, the over-long record
truncated to the remaining bytes). -/
theorem c8_subdescriptors_counterexample :
    parseSubDescriptors [1, 5, 0, 0] =
      Except.ok [SubDesc.other 1 5 [1], SubDesc.other 5 0 [5, 0, 0]] := by
  simp [parseSubDescriptors, subDescGo, Except.map]

/-- C8 (amended): the sub-descriptor walker never raises a
malformed-descriptor error.  A record with `bLength = 1` (below the
2-byte header) is consumed as a 1-byte opaque record and the walk
continues one byte further; a record whose declared `bLength` reaches
past the remaining buffer is truncated to the remaining bytes and the
walk returns normally.  (`t ≠ 4` keeps the record out of the
interface-parsing branch, `rest ≠ []` keeps the loop condition
`byteLength > 2` true.) -/
theorem c8_subdescriptors_lenient :
    (∀ (t : Nat) (rest : List Nat), t ≠ 4 → rest ≠ [] →
      subDescGo (1 :: t :: rest) false =
        (subDescGo (t :: rest) false).map (fun l => SubDesc.other 1 t [1] :: l)) ∧
    (∀ (b t : Nat) (rest : List Nat), rest ≠ [] → (b :: t :: rest).length ≤ b → t ≠ 4 →
      subDescGo (b :: t :: rest) false = Except.ok [SubDesc.other b t (b :: t :: rest)]) := by
  constructor
  · intro t rest ht hrest
    have hlenpos : 0 < rest.length := List.length_pos.mpr hrest
    rw [subDescGo, dif_neg (by simp only [List.length_cons]; omega)]
    simp [ht]
  · intro b t rest hrest hble ht
    have hlenpos : 0 < rest.length := List.length_pos.mpr hrest
    have hlb : 3 ≤ b := by
      simp only [List.length_cons] at hble
      omega
    have htake : (b :: t :: rest).take b = b :: t :: rest := List.take_of_length_le hble
    have hdrop : (b :: t :: rest).drop b = [] := List.drop_eq_nil_of_le hble
    rw [subDescGo, dif_neg (by simp only [List.length_cons]; omega)]
    simp only [List.getD_cons_zero, List.getD_cons_succ, htake, hdrop]
    rw [if_neg ht]
    simp only [Bool.false_and, if_neg (by simp : ¬(false = true))]
    rw [dif_neg (by omega : ¬(b = 0))]
    rw [subDescGo]
    simp [Except.map]

theorem c8_subdescriptors_lenient_witness :
    subDescGo (1 :: 5 :: [0, 0]) false =
      (subDescGo (5 :: [0, 0]) false).map (fun l => SubDesc.other 1 5 [1] :: l) :=
  c8_subdescriptors_lenient.1 5 [0, 0] (by decide) (by decide)

/-- C2 counterexample: on
`@Internal Flash  /0x08000000/04*016Kg,01*064Kg,07*128Kg` the parser
does not return the segment list the claim states: the third run
`07*128Kg` covers 7 sectors of 131072 bytes, so the third segment ends
at 0x08020000 + 7 * 0x20000 = 0x08100000, not 0x080A0000. -/
theorem c2_memory_map_counterexample :
    parseMemoryDescriptor ("@Internal Flash  /0x08000000/04*016Kg,01*064Kg,07*128Kg".toList) ≠
      some ("Internal Flash".toList,
        [⟨0x08000000, 0x08010000, 16384, true, true, true⟩,
         ⟨0x08010000, 0x08020000, 65536, true, true, true⟩,
         ⟨0x08020000, 0x080A0000, 131072, true, true, true⟩]) := by
  intro h
  rw [show parseMemoryDescriptor
        ("@Internal Flash  /0x08000000/04*016Kg,01*064Kg,07*128Kg".toList) =
      some ("Internal Flash".toList,
        [⟨0x08000000, 0x08010000, 16384, true, true, true⟩,
         ⟨0x08010000, 0x08020000, 65536, true, true, true⟩,
         ⟨0x08020000, 0x08100000, 131072, true, true, true⟩]) from rfl] at h
  simp at h

/-- C2 (amended): parsing
`@Internal Flash  /0x08000000/04*016Kg,01*064Kg,07*128Kg` yields the
name `Internal Flash` and exactly three segments
`[0x08000000, 0x08010000)` with sector size 16384,
`[0x08010000, 0x08020000)` with sector size 65536 and
`[0x08020000, 0x08100000)` with sector size 131072, each readable,
erasable and writable ('g' decodes to the 3-bit map 7); the unit
multipliers are ' ' = 'B' = 1, 'K' = 1024, 'M' = 1048576. -/
theorem c2_memory_map_parse :
    parseMemoryDescriptor ("@Internal Flash  /0x08000000/04*016Kg,01*064Kg,07*128Kg".toList) =
      some ("Internal Flash".toList,
        [⟨0x08000000, 0x08010000, 16384, true, true, true⟩,
         ⟨0x08010000, 0x08020000, 65536, true, true, true⟩,
         ⟨0x08020000, 0x08100000, 131072, true, true, true⟩]) ∧
    segMultiplier ' ' = 1 ∧ segMultiplier 'B' = 1 ∧
    segMultiplier 'K' = 1024 ∧ segMultiplier 'M' = 1048576 :=
  ⟨rfl, rfl, rfl, rfl, rfl⟩

/-- C10: the parser accepts `@X/0x08000000/1*0Kg` (a run whose size
digits are 0) and emits the degenerate segment with
`sectorSize = 0` and `start = end`, on which the invariant
`start < end` fails and sector arithmetic divides by zero. -/
theorem c10_degenerate_segment :
    parseMemoryDescriptor ("@X/0x08000000/1*0Kg".toList) =
      some ("X".toList, [⟨0x08000000, 0x08000000, 0, true, true, true⟩]) ∧
    (⟨0x08000000, 0x08000000, 0, true, true, true⟩ : Seg).sectorSize = 0 ∧
    (⟨0x08000000, 0x08000000, 0, true, true, true⟩ : Seg).start =
      (⟨0x08000000, 0x08000000, 0, true, true, true⟩ : Seg).endAddr ∧
    ¬((⟨0x08000000, 0x08000000, 0, true, true, true⟩ : Seg).start <
      (⟨0x08000000, 0x08000000, 0, true, true, true⟩ : Seg).endAddr) :=
  ⟨rfl, rfl, rfl, by decide⟩

/-- C9 counterexample: the well-prefixed descriptor `@X/` produces no
segment, yet the parser succeeds with an empty segment list instead of
raising MalformedMemoryMap — "no valid segment" does not raise, and
success does not guarantee a non-empty list. -/
theorem c9_parse_empty_counterexample :
    parseMemoryDescriptor ("@X/".toList) = some (['X'], []) := rfl

theorem slash_not_mem_of_findIdx?_none (desc : List Char)
    (h : desc.findIdx? (fun c => c = '/') = none) : '/' ∉ desc := by
  intro hmem
  have := List.findIdx?_eq_none_iff.mp h '/' hmem
  simp at this

theorem slash_mem_of_findIdx?_some (desc : List Char) (i : Nat)
    (h : desc.findIdx? (fun c => c = '/') = some i) : '/' ∈ desc := by
  by_contra hni
  have hnone : desc.findIdx? (fun c => c = '/') = none :=
    List.findIdx?_eq_none_iff.mpr (fun x hx =>
      decide_eq_false (fun heq => hni (heq ▸ hx)))
  rw [hnone] at h
  exact Option.noConfusion h

/-- C9 (amended): `parseMemoryDescriptor` raises MalformedMemoryMap if
and only if the input does not start with '@' or contains no '/'; after
that prefix check it never fails, so a successful parse may carry an
empty segment list. -/
theorem c9_parse_error_iff (desc : List Char) :
    parseMemoryDescriptor desc = none ↔
      ¬(desc.head? = some '@' ∧ '/' ∈ desc) := by
  unfold parseMemoryDescriptor
  cases hidx : desc.findIdx? (fun c => c = '/') with
  | none =>
    have hnm := slash_not_mem_of_findIdx?_none desc hidx
    simp [hnm]
  | some nameEnd =>
    by_cases hh : desc.head? = some '@'
    · have hmem := slash_mem_of_findIdx?_some desc nameEnd hidx
      simp [hh, hmem]
    · simp [hh]

/-- C6 counterexample: `@N/0x1000/1*1Bg/0x0/1*1Bg` parses into two
segments where the first block's segment `[0x1000, 0x1001)` precedes
the second block's segment `[0x0, 0x1)`, so the parsed segment list is
neither sorted by start nor non-overlapping in the claimed sense
(`s1.end ≤ s2.start` fails). -/
theorem c6_sorted_counterexample :
    parseMemoryDescriptor ("@N/0x1000/1*1Bg/0x0/1*1Bg".toList) =
      some ("N".toList,
        [⟨0x1000, 0x1001, 1, true, true, true⟩, ⟨0x0, 0x1, 1, true, true, true⟩]) ∧
    ¬ List.Pairwise (fun s1 s2 => s1.endAddr ≤ s2.start)
        [(⟨0x1000, 0x1001, 1, true, true, true⟩ : Seg),
         ⟨0x0, 0x1, 1, true, true, true⟩] :=
  ⟨rfl, by decide⟩

theorem buildSegs_shape : ∀ (runs : List RunM) (addr : Nat) (s : Seg),
    s ∈ buildSegs addr runs → ∃ k, s.endAddr = s.start + s.sectorSize * k := by
  intro runs
  induction runs with
  | nil =>
    intro addr s hs
    simp [buildSegs] at hs
  | cons r rs ih =>
    intro addr s hs
    simp only [buildSegs, List.mem_cons] at hs
    rcases hs with rfl | hs
    · exact ⟨r.count, rfl⟩
    · exact ih _ s hs

theorem mem_segsOfBlocks : ∀ (bs : List (Nat × List Char)) (s : Seg),
    s ∈ segsOfBlocks bs →
    ∃ b ∈ bs, s ∈ buildSegs b.1 (innerExec (b.2.length + 1) b.2) := by
  intro bs
  induction bs with
  | nil =>
    intro s hs
    simp [segsOfBlocks] at hs
  | cons b bs ih =>
    obtain ⟨a, m⟩ := b
    intro s hs
    simp only [segsOfBlocks, List.mem_append] at hs
    rcases hs with hs | hs
    · exact ⟨(a, m), by simp, hs⟩
    · obtain ⟨b2, hb2, hsb2⟩ := ih s hs
      exact ⟨b2, by simp [hb2], hsb2⟩

theorem buildSegs_chain : ∀ (runs : List RunM) (addr : Nat),
    List.Chain' (fun s1 s2 => s1.endAddr = s2.start) (buildSegs addr runs) := by
  intro runs
  induction runs with
  | nil =>
    intro addr
    simp [buildSegs]
  | cons r rs ih =>
    intro addr
    cases rs with
    | nil => simp [buildSegs]
    | cons r2 rs2 =>
      have h2 := ih (addr + r.size * segMultiplier r.unit * r.count)
      simp only [buildSegs] at h2 ⊢
      exact List.chain'_cons.mpr ⟨rfl, h2⟩

/-- C6 (amended): every segment the parser emits satisfies
`start ≤ end` and `sector_size ∣ (end - start)` (`start < end` can fail,
see the degenerate zero-size runs), and the segments produced from one
`/addr/run,run,...` block are contiguous — each run's segment ends
exactly where the next one starts, so within a block the list is sorted
and non-overlapping; across blocks no ordering is guaranteed. -/
theorem c6_segment_invariants :
    (∀ (desc name : List Char) (segs : List Seg),
      parseMemoryDescriptor desc = some (name, segs) →
      ∀ s ∈ segs, s.start ≤ s.endAddr ∧ s.sectorSize ∣ (s.endAddr - s.start)) ∧
    (∀ (addr : Nat) (runs : List RunM),
      List.Chain' (fun s1 s2 => s1.endAddr = s2.start) (buildSegs addr runs)) := by
  constructor
  · intro desc name segs hp s hs
    unfold parseMemoryDescriptor at hp
    cases hidx : desc.findIdx? (fun c => c = '/') with
    | none =>
      simp only [hidx] at hp
      exact absurd hp (by simp)
    | some nameEnd =>
      simp only [hidx] at hp
      by_cases hh : desc.head? = some '@'
      · rw [if_pos hh] at hp
        simp only [Option.some.injEq, Prod.mk.injEq] at hp
        obtain ⟨-, hsegs⟩ := hp
        rw [← hsegs] at hs
        unfold memSegments at hs
        obtain ⟨b, _, hsb⟩ := mem_segsOfBlocks _ s hs
        obtain ⟨k, hk⟩ := buildSegs_shape _ _ s hsb
        constructor
        · rw [hk]
          exact Nat.le_add_right _ _
        · rw [hk, Nat.add_sub_cancel_left]
          exact dvd_mul_right _ _
      · rw [if_neg hh] at hp
        exact absurd hp (by simp)
  · intro addr runs
    exact buildSegs_chain runs addr

theorem c6_segment_invariants_witness :
    (⟨0x100, 0x900, 1024, true, true, true⟩ : Seg).start ≤
      (⟨0x100, 0x900, 1024, true, true, true⟩ : Seg).endAddr ∧
    (⟨0x100, 0x900, 1024, true, true, true⟩ : Seg).sectorSize ∣
      ((⟨0x100, 0x900, 1024, true, true, true⟩ : Seg).endAddr -
       (⟨0x100, 0x900, 1024, true, true, true⟩ : Seg).start) :=
  c6_segment_invariants.1 ("@W/0x100/2*1Kg".toList) ("W".toList)
    [⟨0x100, 0x900, 1024, true, true, true⟩] rfl
    ⟨0x100, 0x900, 1024, true, true, true⟩ (by simp)
